import Mathlib

/-!
Verification of the COPRA overlapping-community label-propagation core
(`src/copra.hxx`): the community scanner, the community selector, the scan
sorter, and the two incremental affected-vertex detectors (delta-screening
and frontier).

Modelling conventions:
* community ids and vertex ids are `Nat` (C++ `K`);
* edge weights and belonging coefficients are `ℚ` (C++ `V`, a float type;
  rationals give the exact arithmetic the algorithms perform symbolically);
* a `Labelset` (C++ `array<pair<K,V>, L>`) is modelled by its populated
  prefix, a `List (Nat × ℚ)`: the fixed-size array's unused slots hold a
  zero coefficient acting as a sentinel, and every reader in the source
  stops at the first zero coefficient, so the populated prefix determines
  all observable behaviour;
* the dense per-community accumulator `vcout` (a `vector<V>`) and the
  per-vertex flag vectors are modelled as total functions `Nat → ℚ` /
  `Nat → Bool`, with the final flag vector materialised over the dense
  vertex range `[0, span)`.
-/

namespace Copra

/-- Fixed labelset capacity, `#define COPRA_LABELS 8` (copra.hxx:20). -/
def COPRA_LABELS : Nat := 8

/-- A labelset's populated prefix: (community id, belonging coefficient)
pairs up to the first zero-coefficient sentinel (copra.hxx:57-58). -/
abbrev Labelset := List (Nat × ℚ)

/-- `vcom[u][0].first`: the primary (top) community of a labelset. The C++
array always has an index 0; an empty populated prefix corresponds to a
default-initialised entry `(0, 0)`. -/
def primary (ls : Labelset) : Nat := (ls.headD (0, 0)).1

/-- `f[a] = true` on a boolean flag vector modelled as a function. -/
def setFlag (f : Nat → Bool) (a : Nat) : Nat → Bool :=
  fun t => if t = a then true else f t

/-- The graph collaborator interface (spec §6): a dense vertex span
`[0, S)` and per-vertex outgoing (neighbor, weight) edge enumeration. -/
structure Graph where
  span : Nat
  adj : Nat → List (Nat × ℚ)

/-- Inner loop of `copraScanCommunity` (copra.hxx:108-112): iterate the
labelset entries `(c, b)` in order, break at the first zero coefficient;
for each entry, push `c` onto `vcs` if its accumulator entry is zero, then
add `w*b` to `vcout[c]`. -/
def scanEntries (w : ℚ) : Labelset → List Nat → (Nat → ℚ) → List Nat × (Nat → ℚ)
  | [], vcs, vcout => (vcs, vcout)
  | (c, b) :: rest, vcs, vcout =>
    if b = 0 then (vcs, vcout)
    else
      scanEntries w rest (if vcout c = 0 then vcs ++ [c] else vcs)
        (fun t => if t = c then vcout t + w * b else vcout t)

/-- `copraScanCommunity` (copra.hxx:105-113). Faithful to the source: when
the self-loop guard passes, the loop iterates `vcom[u]` — the labelset of
the SOURCE vertex `u` — not `vcom[v]`; the parameter `v` is used only in
the self-loop test. -/
def copraScanCommunity (SELF : Bool) (u v : Nat) (w : ℚ) (vcom : Nat → Labelset)
    (vcs : List Nat) (vcout : Nat → ℚ) : List Nat × (Nat → ℚ) :=
  if SELF = false ∧ u = v then (vcs, vcout)
  else scanEntries w (vcom u) vcs vcout

/-- Step 1 of `copraChooseCommunity` (copra.hxx:169-174): walk `vcs` in
order; skip communities with `vcout[c] < WTH`; store `(c, vcout[c])` and
add `vcout[c]` to the running total `w` for the rest. Returns the stored
label list and `w`. -/
def copraChooseStep1 (vcout : Nat → ℚ) (WTH : ℚ) : List Nat → List (Nat × ℚ) × ℚ
  | [] => ([], 0)
  | c :: cs =>
    let s := copraChooseStep1 vcout WTH cs
    if vcout c < WTH then s else ((c, vcout c) :: s.1, vcout c + s.2)

/-- Step 2 of `copraChooseCommunity` (copra.hxx:175-180): if no label was
above the threshold and `vcs` is non-empty, store `vcs[0]` with its weight
and add that weight to `w`. -/
def copraChooseStep2 (vcs : List Nat) (vcout : Nat → ℚ) (s : List (Nat × ℚ) × ℚ) :
    List (Nat × ℚ) × ℚ :=
  if s.1 = [] ∧ vcs ≠ [] then
    ([(vcs.headD 0, vcout (vcs.headD 0))], s.2 + vcout (vcs.headD 0))
  else s

/-- `copraChooseCommunity` (copra.hxx:164-187): steps 1-2 select the
candidate labels, step 3 divides every stored coefficient by the running
total `w`, step 4 falls back to the singleton `{(u, 1)}` when nothing was
stored. The source writes the labels into a fixed 8-slot array with no
bound check; the model returns the full stored sequence. -/
def copraChooseCommunity (u : Nat) (vcs : List Nat) (vcout : Nat → ℚ) (WTH : ℚ) : Labelset :=
  let s := copraChooseStep2 vcs vcout (copraChooseStep1 vcout WTH vcs)
  let labs := s.1.map (fun p => (p.1, p.2 / s.2))
  if labs = [] then [(u, 1)] else labs

/-- Labelset table assigning every vertex its singleton self-community,
as `copraInitialize` does (copra.hxx:85-88). -/
def vcomSelf : Nat → Labelset := fun t => [(t, 1)]

/-- Claim C1: on edge (u=0, v=1, w=1) with `vcom[0] = {(0,1)}` and
`vcom[1] = {(1,1)}`, the claim says the scanner iterates the NEIGHBOR
`v`'s labelset, so community 1 would receive weight 1. The code iterates
`vcom[u]` instead: community 0 (the source's own community) receives the
weight and is the only touched community, while community 1 receives
nothing. -/
theorem copraScanCommunity_eval_claim1 :
    (copraScanCommunity false 0 1 1 vcomSelf [] (fun _ => 0)).1 = [0] ∧
    (copraScanCommunity false 0 1 1 vcomSelf [] (fun _ => 0)).2 0 = 1 ∧
    (copraScanCommunity false 0 1 1 vcomSelf [] (fun _ => 0)).2 1 = 0 := by
  refine ⟨rfl, ?_, ?_⟩ <;> norm_num [copraScanCommunity, scanEntries, vcomSelf]

/-- Claim C2: with nine touched communities all meeting the threshold
(`vcout ≡ 1`, `WTH = 1`), `copraChooseCommunity` stores nine entries —
one more than the fixed capacity `COPRA_LABELS = 8`. In the C++ source
the ninth store is `labs[8]` on an 8-slot `array`, past its end; no
truncation to `maxMembership` or to `L` exists in the function. -/
theorem copraChooseCommunity_overflow_claim2 :
    (copraChooseCommunity 0 [1, 2, 3, 4, 5, 6, 7, 8, 9] (fun _ => 1) 1).length = 9 ∧
    COPRA_LABELS < 9 := by
  constructor <;> decide

/-- Claim C6: with a selected candidate of accumulated weight zero
(`vcs = [5]`, `vcout[5] = 0`, `WTH = 0`), the total `w` is zero, yet the
code does not fall back to the self singleton `{(u, 1)}`: it normalizes by
dividing by `w = 0` (`0/0`, NaN in the C++ float type; `0` in this exact
model) and returns the labelset headed by community 5, not `{(3, 1)}`. -/
theorem copraChooseCommunity_zero_weight_eval :
    copraChooseCommunity 3 [5] (fun _ => 0) 0 = [(5, 0)] ∧
    ([(5, 0)] : Labelset) ≠ [(3, 1)] := by
  constructor
  · norm_num [copraChooseCommunity, copraChooseStep1, copraChooseStep2]
  · decide

/-- Modelled from the spec: `sortValues` comes from `_main.hxx`, which is
not part of this repository snapshot. Spec §4.4 step 1 says `copraSortScan`
sorts the touched communities "by accumulated weight descending" with the
comparator deciding ties, so the missing generic utility is modelled as the
stable sort that places an element `c` before `d` exactly when the
comparator does not order `c` below `d`. This is its insertion step. -/
def sortInsert (fl : Nat → Nat → Bool) (c : Nat) : List Nat → List Nat
  | [] => [c]
  | d :: ds => if fl c d then d :: sortInsert fl c ds else c :: d :: ds

/-- Modelled from the spec: the sort itself (see `sortInsert`) — a stable
insertion sort, descending with respect to the comparator `fl`. -/
def sortValues (fl : Nat → Nat → Bool) : List Nat → List Nat
  | [] => []
  | c :: cs => sortInsert fl c (sortValues fl cs)

/-- The comparator of `copraSortScan` (copra.hxx:137):
`vcout[c] < vcout[d] || (!STRICT && vcout[c] == vcout[d] && ((c ^ d) & 2))`. -/
def copraSortCmp (STRICT : Bool) (vcout : Nat → ℚ) (c d : Nat) : Bool :=
  decide (vcout c < vcout d) ||
    (!STRICT && decide (vcout c = vcout d) && decide ((c ^^^ d) &&& 2 ≠ 0))

/-- `copraSortScan` (copra.hxx:135-139). -/
def copraSortScan (STRICT : Bool) (vcout : Nat → ℚ) (vcs : List Nat) : List Nat :=
  sortValues (copraSortCmp STRICT vcout) vcs

theorem sortInsert_perm (fl : Nat → Nat → Bool) (c : Nat) :
    ∀ l : List Nat, (sortInsert fl c l).Perm (c :: l)
  | [] => List.Perm.refl _
  | d :: ds => by
    unfold sortInsert
    split
    · exact ((sortInsert_perm fl c ds).cons d).trans (List.Perm.swap c d ds)
    · exact List.Perm.refl _

theorem sortValues_perm (fl : Nat → Nat → Bool) :
    ∀ xs : List Nat, (sortValues fl xs).Perm xs
  | [] => List.Perm.refl _
  | c :: cs => (sortInsert_perm fl c _).trans ((sortValues_perm fl cs).cons c)

theorem sortInsert_pairwise (fl : Nat → Nat → Bool) (vcout : Nat → ℚ)
    (h1 : ∀ a b, fl a b = true → vcout a ≤ vcout b)
    (h2 : ∀ a b, fl a b = false → vcout b ≤ vcout a) (c : Nat) :
    ∀ l : List Nat, l.Pairwise (fun a b => vcout b ≤ vcout a) →
      (sortInsert fl c l).Pairwise (fun a b => vcout b ≤ vcout a)
  | [], _ => by simp [sortInsert]
  | d :: ds, hp => by
    rw [List.pairwise_cons] at hp
    unfold sortInsert
    split
    next hfl =>
      rw [List.pairwise_cons]
      refine ⟨?_, sortInsert_pairwise fl vcout h1 h2 c ds hp.2⟩
      intro e he
      rcases List.mem_cons.mp ((sortInsert_perm fl c ds).mem_iff.mp he) with he | he
      · exact he ▸ h1 c d hfl
      · exact hp.1 e he
    next hfl =>
      rw [List.pairwise_cons, List.pairwise_cons]
      refine ⟨?_, hp.1, hp.2⟩
      intro e he
      rcases List.mem_cons.mp he with he | he
      · exact he ▸ h2 c d (Bool.of_not_eq_true hfl)
      · exact le_trans (hp.1 e he) (h2 c d (Bool.of_not_eq_true hfl))

theorem sortValues_pairwise (fl : Nat → Nat → Bool) (vcout : Nat → ℚ)
    (h1 : ∀ a b, fl a b = true → vcout a ≤ vcout b)
    (h2 : ∀ a b, fl a b = false → vcout b ≤ vcout a) :
    ∀ xs : List Nat, (sortValues fl xs).Pairwise (fun a b => vcout b ≤ vcout a)
  | [] => by simp [sortValues]
  | c :: cs =>
    sortInsert_pairwise fl vcout h1 h2 c _ (sortValues_pairwise fl vcout h1 h2 cs)

theorem copraSortCmp_le_of_true (STRICT : Bool) (vcout : Nat → ℚ) (a b : Nat)
    (h : copraSortCmp STRICT vcout a b = true) : vcout a ≤ vcout b := by
  simp only [copraSortCmp, Bool.or_eq_true, Bool.and_eq_true, decide_eq_true_eq] at h
  rcases h with h | ⟨⟨_, h⟩, _⟩
  · exact le_of_lt h
  · exact le_of_eq h

theorem copraSortCmp_ge_of_false (STRICT : Bool) (vcout : Nat → ℚ) (a b : Nat)
    (h : copraSortCmp STRICT vcout a b = false) : vcout b ≤ vcout a := by
  simp only [copraSortCmp, Bool.or_eq_false_iff, decide_eq_false_iff_not] at h
  exact le_of_not_lt h.1

/-- Claim C4 counterexample: with all weights equal (every pair tied,
strict mode off), the pairs (0,1) and (1,2) have XOR values 1 and 3, both
of ODD parity (lowest bit set), yet `copraSortScan` leaves [0,1] in place
while it swaps [1,2]: the relative order of a tied pair is decided by bit
1 of the XOR (`(c ^ d) & 2`, copra.hxx:137), not by its parity. -/
theorem copraSortScan_tie_not_parity_counterexample :
    copraSortScan false (fun _ => 1) [0, 1] = [0, 1] ∧
    copraSortScan false (fun _ => 1) [1, 2] = [2, 1] ∧
    (0 ^^^ 1) &&& 1 = (1 ^^^ 2) &&& 1 := by
  refine ⟨?_, ?_, rfl⟩ <;>
    norm_num [copraSortScan, sortValues, sortInsert, copraSortCmp]
  decide

/-- Claim C4 (amended): `copraSortScan` orders the touched communities by
accumulated weight descending — the output is a permutation of the input
that is pairwise non-increasing in weight; when two communities `c` and
`d` have exactly equal weight and strict mode is off, their relative
order is decided by BIT 1 of `c XOR d` (mask 2, not the lowest bit): the
tied pair is swapped exactly when that bit is set; with strict mode on no
tie perturbation is applied and equal-weight communities keep their
original (stable) order. -/
theorem copraSortScan_amended :
    (∀ (STRICT : Bool) (vcout : Nat → ℚ) (vcs : List Nat),
        (copraSortScan STRICT vcout vcs).Perm vcs ∧
        (copraSortScan STRICT vcout vcs).Pairwise (fun a b => vcout b ≤ vcout a)) ∧
    (∀ (vcout : Nat → ℚ) (c d : Nat), vcout c = vcout d →
        copraSortScan false vcout [c, d] =
          if (c ^^^ d) &&& 2 ≠ 0 then [d, c] else [c, d]) ∧
    (∀ (vcout : Nat → ℚ) (c d : Nat), vcout c = vcout d →
        copraSortScan true vcout [c, d] = [c, d]) := by
  refine ⟨fun STRICT vcout vcs => ⟨sortValues_perm _ vcs, ?_⟩, ?_, ?_⟩
  · exact sortValues_pairwise _ vcout
      (copraSortCmp_le_of_true STRICT vcout) (copraSortCmp_ge_of_false STRICT vcout) vcs
  · intro vcout c d h
    have hlt : ¬ vcout c < vcout d := by rw [h]; exact lt_irrefl _
    simp [copraSortScan, sortValues, sortInsert, copraSortCmp, h, hlt]
  · intro vcout c d h
    have hlt : ¬ vcout c < vcout d := by rw [h]; exact lt_irrefl _
    simp [copraSortScan, sortValues, sortInsert, copraSortCmp, hlt]

/-- Witness for `copraSortScan_amended`: equal weights, pair (0, 2); bit 1
of `0 XOR 2` is set, so the tied pair is swapped. -/
theorem copraSortScan_amended_witness :
    copraSortScan false (fun _ => (1 : ℚ)) [0, 2] = [2, 0] := by
  have h := copraSortScan_amended.2.1 (fun _ => (1 : ℚ)) 0 2 rfl
  rw [h]
  norm_num

theorem copraChooseStep1_fst (vcout : Nat → ℚ) (WTH : ℚ) :
    ∀ vcs : List Nat, (copraChooseStep1 vcout WTH vcs).1 =
      (vcs.filter (fun c => !decide (vcout c < WTH))).map (fun c => (c, vcout c))
  | [] => rfl
  | c :: cs => by
    by_cases h : vcout c < WTH <;>
      simp [copraChooseStep1, h, copraChooseStep1_fst vcout WTH cs]

theorem copraChooseStep1_snd (vcout : Nat → ℚ) (WTH : ℚ) :
    ∀ vcs : List Nat, (copraChooseStep1 vcout WTH vcs).2 =
      ((copraChooseStep1 vcout WTH vcs).1.map Prod.snd).sum
  | [] => rfl
  | c :: cs => by
    by_cases h : vcout c < WTH <;>
      simp [copraChooseStep1, h, copraChooseStep1_snd vcout WTH cs]

theorem copraChooseStep1_mem (vcout : Nat → ℚ) (WTH : ℚ) (vcs : List Nat) :
    ∀ p ∈ (copraChooseStep1 vcout WTH vcs).1, p.2 = vcout p.1 := by
  rw [copraChooseStep1_fst]
  intro p hp
  rcases List.mem_map.mp hp with ⟨c, _, hc⟩
  rw [← hc]

theorem copraChooseStep2_mem (vcs : List Nat) (vcout : Nat → ℚ) (s : List (Nat × ℚ) × ℚ)
    (hs : ∀ p ∈ s.1, p.2 = vcout p.1) :
    ∀ p ∈ (copraChooseStep2 vcs vcout s).1, p.2 = vcout p.1 := by
  unfold copraChooseStep2
  split
  · intro p hp
    rcases List.mem_singleton.mp hp with rfl
    rfl
  · exact hs

theorem copraChooseStep2_snd (vcs : List Nat) (vcout : Nat → ℚ) (s : List (Nat × ℚ) × ℚ)
    (hs : s.2 = (s.1.map Prod.snd).sum) :
    (copraChooseStep2 vcs vcout s).2 = ((copraChooseStep2 vcs vcout s).1.map Prod.snd).sum := by
  unfold copraChooseStep2
  split
  next h => simp [hs, h.1]
  next => exact hs

theorem sum_map_div (l : List ℚ) (w : ℚ) : (l.map (fun x => x / w)).sum = l.sum / w := by
  induction l with
  | nil => simp
  | cons a l ih => simp [ih, add_div]

/-- Claim C7: whenever the candidate label set produced by steps 1-2 of
`copraChooseCommunity` is non-empty and has non-zero total weight `w`, the
returned labelset's coefficients sum to exactly 1 (over the exact rational
arithmetic of this model), and each candidate's coefficient is its
accumulated weight divided by the candidates' total accumulated weight. -/
theorem copraChooseCommunity_normalized_sum :
    ∀ (u : Nat) (vcs : List Nat) (vcout : Nat → ℚ) (WTH : ℚ),
      (copraChooseStep2 vcs vcout (copraChooseStep1 vcout WTH vcs)).1 ≠ [] →
      (copraChooseStep2 vcs vcout (copraChooseStep1 vcout WTH vcs)).2 ≠ 0 →
      ((copraChooseCommunity u vcs vcout WTH).map Prod.snd).sum = 1 ∧
      ∀ p ∈ copraChooseCommunity u vcs vcout WTH,
        p.2 = vcout p.1 /
          (((copraChooseStep2 vcs vcout (copraChooseStep1 vcout WTH vcs)).1.map
            (fun q => vcout q.1)).sum) := by
  intro u vcs vcout WTH h1 h2
  set s := copraChooseStep2 vcs vcout (copraChooseStep1 vcout WTH vcs) with hsdef
  have hmem : ∀ p ∈ s.1, p.2 = vcout p.1 :=
    copraChooseStep2_mem vcs vcout _ (copraChooseStep1_mem vcout WTH vcs)
  have hsum : s.2 = (s.1.map Prod.snd).sum :=
    copraChooseStep2_snd vcs vcout _ (copraChooseStep1_snd vcout WTH vcs)
  have hmapeq : s.1.map (fun q => vcout q.1) = s.1.map Prod.snd := by
    apply List.map_congr_left
    intro q hq
    exact (hmem q hq).symm
  have hres : copraChooseCommunity u vcs vcout WTH = s.1.map (fun p => (p.1, p.2 / s.2)) := by
    unfold copraChooseCommunity
    rw [← hsdef]
    simp [h1]
  constructor
  · rw [hres, List.map_map]
    have : (Prod.snd ∘ fun p : Nat × ℚ => (p.1, p.2 / s.2)) =
        (fun x => x / s.2) ∘ Prod.snd := rfl
    rw [this, ← List.map_map, sum_map_div, ← hsum, div_self h2]
  · intro p hp
    rw [hres] at hp
    rcases List.mem_map.mp hp with ⟨q, hq, hpq⟩
    rw [hmapeq, ← hsum, ← hpq]
    simp [hmem q hq]

/-- Witness for `copraChooseCommunity_normalized_sum`: one touched
community of weight 2, threshold 0 — the returned coefficients sum to 1. -/
theorem copraChooseCommunity_normalized_sum_witness :
    ((copraChooseCommunity 0 [1] (fun _ => 2) 0).map Prod.snd).sum = 1 := by
  have h := copraChooseCommunity_normalized_sum 0 [1] (fun _ => 2) 0
    (by norm_num [copraChooseStep1, copraChooseStep2])
    (by norm_num [copraChooseStep1, copraChooseStep2])
  exact h.1

/-- Weight table for the claim C5 counterexample. -/
def vcoutC5 : Nat → ℚ := fun c => if c = 2 then 5 else 1

/-- Claim C5 counterexample: touched communities [1, 2] with weights 1 and
5, threshold 10 — nothing reaches the threshold, the touched set is
non-empty, and the claim says the candidate is the highest-weighted
touched community (community 2, weight 5). The code instead takes
`vcs[0]` and returns community 1 (weight 1). -/
theorem copraChooseCommunity_fallback_counterexample :
    (copraChooseCommunity 0 [1, 2] vcoutC5 10).map Prod.fst = [1] ∧
    vcoutC5 1 < vcoutC5 2 ∧ vcoutC5 1 < 10 ∧ vcoutC5 2 < 10 := by
  refine ⟨?_, by norm_num [vcoutC5], by norm_num [vcoutC5], by norm_num [vcoutC5]⟩
  norm_num [copraChooseCommunity, copraChooseStep1, copraChooseStep2, vcoutC5]
  decide

/-- Claim C5 (amended): when at least one touched community has
accumulated weight ≥ threshold, the candidate set is exactly those
communities (in touched order); when no touched community reaches the
threshold and the touched set is non-empty, the candidate set is exactly
the FIRST community of the touched list (`vcs[0]`) — which is the
highest-weighted one only if the caller pre-sorted the list descending. -/
theorem copraChooseCommunity_selection_amended :
    ∀ (u : Nat) (vcs : List Nat) (vcout : Nat → ℚ) (WTH : ℚ),
      ((∃ c ∈ vcs, WTH ≤ vcout c) →
        (copraChooseCommunity u vcs vcout WTH).map Prod.fst =
          vcs.filter (fun c => decide (WTH ≤ vcout c))) ∧
      (((∀ c ∈ vcs, vcout c < WTH) ∧ vcs ≠ []) →
        (copraChooseCommunity u vcs vcout WTH).map Prod.fst = [vcs.headD 0]) := by
  intro u vcs vcout WTH
  have hfil : vcs.filter (fun c => !decide (vcout c < WTH)) =
      vcs.filter (fun c => decide (WTH ≤ vcout c)) := by
    apply List.filter_congr
    intro a _
    rw [← decide_not]
    exact decide_eq_decide.mpr not_lt
  constructor
  · rintro ⟨c, hc, hcw⟩
    have hne : (copraChooseStep1 vcout WTH vcs).1 ≠ [] := by
      rw [copraChooseStep1_fst, hfil]
      simp only [ne_eq, List.map_eq_nil_iff, List.filter_eq_nil_iff, not_forall]
      exact ⟨c, hc, by simpa using hcw⟩
    have hs2 : copraChooseStep2 vcs vcout (copraChooseStep1 vcout WTH vcs) =
        copraChooseStep1 vcout WTH vcs := by
      unfold copraChooseStep2
      simp [hne]
    unfold copraChooseCommunity
    rw [hs2]
    have hcond : ¬ ((copraChooseStep1 vcout WTH vcs).1.map
        (fun p => (p.1, p.2 / (copraChooseStep1 vcout WTH vcs).2))) = [] := by
      simpa using hne
    rw [if_neg hcond, copraChooseStep1_fst, hfil]
    simp [List.map_map, Function.comp_def]
  · rintro ⟨hall, hne⟩
    have h1 : (copraChooseStep1 vcout WTH vcs).1 = [] := by
      rw [copraChooseStep1_fst]
      simp only [List.map_eq_nil_iff, List.filter_eq_nil_iff]
      intro a ha
      simp [hall a ha]
    have hs2 : copraChooseStep2 vcs vcout (copraChooseStep1 vcout WTH vcs) =
        ([(vcs.headD 0, vcout (vcs.headD 0))],
          (copraChooseStep1 vcout WTH vcs).2 + vcout (vcs.headD 0)) := by
      unfold copraChooseStep2
      simp [h1, hne]
    unfold copraChooseCommunity
    rw [hs2]
    simp

/-- Witness for `copraChooseCommunity_selection_amended`: the fallback
branch on the counterexample's own input — candidate is `vcs[0] = 1`. -/
theorem copraChooseCommunity_selection_amended_witness :
    (copraChooseCommunity 0 [1, 2] vcoutC5 10).map Prod.fst = [List.headD [1, 2] 0] :=
  (copraChooseCommunity_selection_amended 0 [1, 2] vcoutC5 10).2
    ⟨by intro c hc; fin_cases hc <;> norm_num [vcoutC5], by decide⟩

/-- State of the three flag vectors `vertices`, `neighbors`, `communities`
used by delta-screening (copra.hxx:230). -/
abbrev Flags3 := (Nat → Bool) × (Nat → Bool) × (Nat → Bool)

/-- One deletion of delta-screening (copra.hxx:231-238): a deletion whose
endpoints share their primary community marks `vertices[u]`,
`neighbors[u]` and `communities[cv]`; otherwise it does nothing. -/
def deltaDelStep (vcom : Nat → Labelset) (s : Flags3) (e : Nat × Nat) : Flags3 :=
  if primary (vcom e.1) ≠ primary (vcom e.2) then s
  else (setFlag s.1 e.1, setFlag s.2.1 e.1, setFlag s.2.2 (primary (vcom e.2)))

/-- The deletion loop of delta-screening (copra.hxx:231-238). -/
def deltaDelPhase (vcom : Nat → Labelset) (deletions : List (Nat × Nat)) (s : Flags3) :
    Flags3 :=
  deletions.foldl (deltaDelStep vcom) s

/-- The inner insertion loop of one run (copra.hxx:242-249): scan, with
the community scanner, exactly the edges whose destination's primary
community differs from the source's. -/
def deltaScanRun (vcom : Nat → Labelset) (u : Nat) :
    List (Nat × Nat × ℚ) → List Nat × (Nat → ℚ) → List Nat × (Nat → ℚ)
  | [], acc => acc
  | e :: rest, acc =>
    deltaScanRun vcom u rest
      (if primary (vcom u) = primary (vcom e.2.1) then acc
       else copraScanCommunity false u e.2.1 e.2.2 vcom acc.1 acc.2)

/-- One maximal same-source insertion run (copra.hxx:240-256): fresh
scratch accumulator (`copraClearScan` restores all-zero state), scan the
run, call the selector with threshold `B * vtot[u]` (line 250; the call's
argument list is adapted to the selector defined at line 165), and mark
`vertices[u]`, `neighbors[u]`, `communities[cl]` exactly when the selected
top community `cl` differs from `u`'s current primary community. -/
def deltaInsStep (vcom : Nat → Labelset) (vtot : Nat → ℚ) (B : ℚ) (s : Flags3)
    (u : Nat) (run : List (Nat × Nat × ℚ)) : Flags3 :=
  let acc := deltaScanRun vcom u run ([], fun _ => 0)
  let ls := copraChooseCommunity u acc.1 acc.2 (B * vtot u)
  if primary ls = primary (vcom u) then s
  else (setFlag s.1 u, setFlag s.2.1 u, setFlag s.2.2 (primary ls))

/-- The insertion loop of delta-screening (copra.hxx:239-257): insertions
are grouped into maximal runs sharing a source vertex. The fuel argument
(instantiated with the batch length, which bounds the number of runs)
makes the recursion structural. -/
def deltaInsRuns (vcom : Nat → Labelset) (vtot : Nat → ℚ) (B : ℚ) :
    Nat → List (Nat × Nat × ℚ) → Flags3 → Flags3
  | 0, _, s => s
  | _ + 1, [], s => s
  | fuel + 1, e :: rest, s =>
    deltaInsRuns vcom vtot B fuel (rest.dropWhile (fun f => f.1 = e.1))
      (deltaInsStep vcom vtot B s e.1 (e :: rest.takeWhile (fun f => f.1 = e.1)))

/-- Neighbor half of the propagation pass for one vertex (copra.hxx:260):
if `neighbors[u]`, mark every out-neighbor of `u`. -/
def deltaPropNeigh (x : Graph) (N : Nat → Bool) (V : Nat → Bool) (u : Nat) : Nat → Bool :=
  if N u then (x.adj u).foldl (fun A p => setFlag A p.1) V else V

/-- Full propagation step for one vertex (copra.hxx:258-262): the neighbor
half, then `if (communities[cu]) vertices[u] = true`. -/
def deltaPropStep (x : Graph) (vcom : Nat → Labelset) (N C : Nat → Bool)
    (V : Nat → Bool) (u : Nat) : Nat → Bool :=
  if C (primary (vcom u)) then setFlag (deltaPropNeigh x N V u) u
  else deltaPropNeigh x N V u

/-- Flag state after the deletion and insertion phases of delta-screening. -/
def deltaFlags (deletions : List (Nat × Nat)) (insertions : List (Nat × Nat × ℚ))
    (vcom : Nat → Labelset) (vtot : Nat → ℚ) (B : ℚ) : Flags3 :=
  deltaInsRuns vcom vtot B insertions.length insertions
    (deltaDelPhase vcom deletions (fun _ => false, fun _ => false, fun _ => false))

/-- `copraAffectedVerticesDeltaScreening` (copra.hxx:226-264). -/
def copraAffectedVerticesDeltaScreening (x : Graph) (deletions : List (Nat × Nat))
    (insertions : List (Nat × Nat × ℚ)) (vcom : Nat → Labelset) (vtot : Nat → ℚ)
    (B : ℚ) : List Bool :=
  (List.range x.span).map
    ((List.range x.span).foldl
      (deltaPropStep x vcom (deltaFlags deletions insertions vcom vtot B).2.1
        (deltaFlags deletions insertions vcom vtot B).2.2)
      (deltaFlags deletions insertions vcom vtot B).1)

/-- One deletion of the frontier detector (copra.hxx:291-296): a deletion
whose endpoints share their primary community marks its source vertex. -/
def frontierDelStep (vcom : Nat → Labelset) (A : Nat → Bool) (e : Nat × Nat) : Nat → Bool :=
  if primary (vcom e.1) ≠ primary (vcom e.2) then A else setFlag A e.1

/-- One insertion of the frontier detector (copra.hxx:297-302): an
insertion whose endpoints have different primary communities marks its
source vertex. -/
def frontierInsStep (vcom : Nat → Labelset) (A : Nat → Bool) (e : Nat × Nat × ℚ) :
    Nat → Bool :=
  if primary (vcom e.1) = primary (vcom e.2.1) then A else setFlag A e.1

/-- `copraAffectedVerticesFrontier` (copra.hxx:287-304). -/
def copraAffectedVerticesFrontier (x : Graph) (deletions : List (Nat × Nat))
    (insertions : List (Nat × Nat × ℚ)) (vcom : Nat → Labelset) : List Bool :=
  (List.range x.span).map
    (insertions.foldl (frontierInsStep vcom)
      (deletions.foldl (frontierDelStep vcom) (fun _ => false)))

theorem setFlag_mono {f : Nat → Bool} {a t : Nat} (h : f t = true) : setFlag f a t = true := by
  unfold setFlag
  split <;> simp [h]

theorem setFlag_self (f : Nat → Bool) (a : Nat) : setFlag f a a = true := by
  simp [setFlag]

/-- Pointwise order on flag triples: every raised flag stays raised. -/
def flagsLe (s s' : Flags3) : Prop :=
  (∀ t, s.1 t = true → s'.1 t = true) ∧ (∀ t, s.2.1 t = true → s'.2.1 t = true) ∧
    (∀ t, s.2.2 t = true → s'.2.2 t = true)

theorem flagsLe_refl (s : Flags3) : flagsLe s s :=
  ⟨fun _ h => h, fun _ h => h, fun _ h => h⟩

theorem flagsLe_trans {s1 s2 s3 : Flags3} (h : flagsLe s1 s2) (h' : flagsLe s2 s3) :
    flagsLe s1 s3 :=
  ⟨fun t ht => h'.1 t (h.1 t ht), fun t ht => h'.2.1 t (h.2.1 t ht),
    fun t ht => h'.2.2 t (h.2.2 t ht)⟩

theorem deltaDelStep_le (vcom : Nat → Labelset) (s : Flags3) (e : Nat × Nat) :
    flagsLe s (deltaDelStep vcom s e) := by
  unfold deltaDelStep
  split
  · exact flagsLe_refl s
  · exact ⟨fun t h => setFlag_mono h, fun t h => setFlag_mono h, fun t h => setFlag_mono h⟩

theorem deltaDelPhase_cons (vcom : Nat → Labelset) (e : Nat × Nat) (dels : List (Nat × Nat))
    (s : Flags3) :
    deltaDelPhase vcom (e :: dels) s = deltaDelPhase vcom dels (deltaDelStep vcom s e) := rfl

theorem deltaDelPhase_le (vcom : Nat → Labelset) :
    ∀ (dels : List (Nat × Nat)) (s : Flags3), flagsLe s (deltaDelPhase vcom dels s)
  | [], s => flagsLe_refl s
  | e :: dels, s =>
    flagsLe_trans (deltaDelStep_le vcom s e) (deltaDelPhase_le vcom dels _)

theorem deltaInsStep_le (vcom : Nat → Labelset) (vtot : Nat → ℚ) (B : ℚ) (s : Flags3)
    (u : Nat) (run : List (Nat × Nat × ℚ)) : flagsLe s (deltaInsStep vcom vtot B s u run) := by
  unfold deltaInsStep
  dsimp only
  split
  · exact flagsLe_refl s
  · exact ⟨fun t h => setFlag_mono h, fun t h => setFlag_mono h, fun t h => setFlag_mono h⟩

theorem deltaInsRuns_le (vcom : Nat → Labelset) (vtot : Nat → ℚ) (B : ℚ) :
    ∀ (fuel : Nat) (ins : List (Nat × Nat × ℚ)) (s : Flags3),
      flagsLe s (deltaInsRuns vcom vtot B fuel ins s)
  | 0, _, s => flagsLe_refl s
  | _ + 1, [], s => flagsLe_refl s
  | fuel + 1, e :: _rest, s =>
    flagsLe_trans (deltaInsStep_le vcom vtot B s e.1 _)
      (deltaInsRuns_le vcom vtot B fuel _ _)

theorem adjFold_mono : ∀ (ps : List (Nat × ℚ)) (V : Nat → Bool) (t : Nat), V t = true →
    (ps.foldl (fun A p => setFlag A p.1) V) t = true
  | [], _, _, h => h
  | _ :: ps, _, t, h => adjFold_mono ps _ t (setFlag_mono h)

theorem adjFold_marks : ∀ (ps : List (Nat × ℚ)) (V : Nat → Bool) (p : Nat × ℚ), p ∈ ps →
    (ps.foldl (fun A q => setFlag A q.1) V) p.1 = true
  | q :: ps, V, p, h => by
    rcases List.mem_cons.mp h with rfl | h
    · exact adjFold_mono ps _ p.1 (setFlag_self V p.1)
    · exact adjFold_marks ps _ p h

theorem deltaPropNeigh_mono (x : Graph) (N V : Nat → Bool) (u t : Nat) (h : V t = true) :
    deltaPropNeigh x N V u t = true := by
  unfold deltaPropNeigh
  split
  · exact adjFold_mono _ V t h
  · exact h

theorem deltaPropStep_mono (x : Graph) (vcom : Nat → Labelset) (N C V : Nat → Bool)
    (u t : Nat) (h : V t = true) : deltaPropStep x vcom N C V u t = true := by
  unfold deltaPropStep
  split
  · exact setFlag_mono (deltaPropNeigh_mono x N V u t h)
  · exact deltaPropNeigh_mono x N V u t h

theorem propFold_mono (x : Graph) (vcom : Nat → Labelset) (N C : Nat → Bool) :
    ∀ (l : List Nat) (V : Nat → Bool) (t : Nat), V t = true →
      (l.foldl (deltaPropStep x vcom N C) V) t = true
  | [], _, _, h => h
  | u :: l, V, t, h =>
    propFold_mono x vcom N C l _ t (deltaPropStep_mono x vcom N C V u t h)

theorem propFold_marks_community (x : Graph) (vcom : Nat → Labelset) (N C : Nat → Bool) :
    ∀ (l : List Nat) (V : Nat → Bool) (t : Nat), t ∈ l → C (primary (vcom t)) = true →
      (l.foldl (deltaPropStep x vcom N C) V) t = true
  | u :: l, V, t, ht, hC => by
    rcases List.mem_cons.mp ht with rfl | ht
    · refine propFold_mono x vcom N C l _ t ?_
      unfold deltaPropStep
      rw [if_pos hC]
      exact setFlag_self _ t
    · exact propFold_marks_community x vcom N C l _ t ht hC

theorem propFold_marks_neighbor (x : Graph) (vcom : Nat → Labelset) (N C : Nat → Bool) :
    ∀ (l : List Nat) (V : Nat → Bool) (u : Nat) (p : Nat × ℚ), u ∈ l → N u = true →
      p ∈ x.adj u → (l.foldl (deltaPropStep x vcom N C) V) p.1 = true
  | w :: l, V, u, p, hu, hN, hp => by
    rcases List.mem_cons.mp hu with rfl | hu
    · refine propFold_mono x vcom N C l _ p.1 ?_
      have hne : deltaPropNeigh x N V u p.1 = true := by
        unfold deltaPropNeigh
        rw [if_pos hN]
        exact adjFold_marks _ V p hp
      unfold deltaPropStep
      split
      · exact setFlag_mono hne
      · exact hne
    · exact propFold_marks_neighbor x vcom N C l _ u p hu hN hp

theorem deltaPropStep_id (x : Graph) (vcom : Nat → Labelset) (N C : Nat → Bool)
    (hN : ∀ t, N t = false) (hC : ∀ t, C t = false) (V : Nat → Bool) (u : Nat) :
    deltaPropStep x vcom N C V u = V := by
  unfold deltaPropStep deltaPropNeigh
  simp [hN, hC]

theorem propFold_id (x : Graph) (vcom : Nat → Labelset) (N C : Nat → Bool)
    (hN : ∀ t, N t = false) (hC : ∀ t, C t = false) :
    ∀ (l : List Nat) (V : Nat → Bool), l.foldl (deltaPropStep x vcom N C) V = V
  | [], _ => rfl
  | u :: l, V => by
    rw [List.foldl_cons, deltaPropStep_id x vcom N C hN hC V u]
    exact propFold_id x vcom N C hN hC l V

theorem map_const_false : ∀ l : List Nat, l.map (fun _ => false) = List.replicate l.length false
  | [] => rfl
  | _ :: l => by simp [map_const_false l, List.replicate_succ]

theorem getD_map_range (f : Nat → Bool) (S t : Nat) (h : t < S) :
    ((List.range S).map f).getD t false = f t := by
  rw [List.getD_eq_getElem?_getD, List.getElem?_map, List.getElem?_range h]
  rfl

theorem getD_map_range_ge (f : Nat → Bool) (S t : Nat) (h : ¬ t < S) :
    ((List.range S).map f).getD t false = false := by
  rw [List.getD_eq_getElem?_getD, List.getElem?_eq_none]
  · rfl
  · rw [List.length_map, List.length_range]
    omega

/-- Claim C10: with empty deletion and insertion batches, both detectors
return a flag vector of length `span x` in which every entry is false. -/
theorem copraAffectedVertices_empty_batch :
    ∀ (x : Graph) (vcom : Nat → Labelset) (vtot : Nat → ℚ) (B : ℚ),
      copraAffectedVerticesDeltaScreening x [] [] vcom vtot B =
        List.replicate x.span false ∧
      copraAffectedVerticesFrontier x [] [] vcom = List.replicate x.span false := by
  intro x vcom vtot B
  constructor
  · have hflags : deltaFlags [] [] vcom vtot B =
        (fun _ => false, fun _ => false, fun _ => false) := rfl
    unfold copraAffectedVerticesDeltaScreening
    rw [hflags]
    dsimp only
    rw [propFold_id x vcom _ _ (fun _ => rfl) (fun _ => rfl)]
    rw [map_const_false, List.length_range]
  · have h1 : copraAffectedVerticesFrontier x [] [] vcom =
        (List.range x.span).map (fun _ => false) := rfl
    rw [h1, map_const_false, List.length_range]

theorem deltaDelPhase_marks (vcom : Nat → Labelset) :
    ∀ (dels : List (Nat × Nat)) (s : Flags3) (u v : Nat), (u, v) ∈ dels →
      primary (vcom u) = primary (vcom v) →
      (deltaDelPhase vcom dels s).1 u = true ∧
      (deltaDelPhase vcom dels s).2.1 u = true ∧
      (deltaDelPhase vcom dels s).2.2 (primary (vcom u)) = true
  | e :: dels, s, u, v, h, hc => by
    rcases List.mem_cons.mp h with he | h
    · cases he.symm
      have hstep : deltaDelStep vcom s (u, v) =
          (setFlag s.1 u, setFlag s.2.1 u, setFlag s.2.2 (primary (vcom v))) := by
        unfold deltaDelStep
        rw [if_neg (by simpa using hc)]
      have hle := deltaDelPhase_le vcom dels (deltaDelStep vcom s (u, v))
      rw [deltaDelPhase_cons]
      refine ⟨hle.1 u ?_, hle.2.1 u ?_, hle.2.2 _ ?_⟩ <;> rw [hstep]
      · exact setFlag_self _ u
      · exact setFlag_self _ u
      · rw [hc]
        exact setFlag_self _ _
    · rw [deltaDelPhase_cons]
      exact deltaDelPhase_marks vcom dels _ u v h hc

theorem deltaDelPhase_skip (vcom : Nat → Labelset) :
    ∀ (dels : List (Nat × Nat)) (s : Flags3),
      (∀ e ∈ dels, primary (vcom e.1) ≠ primary (vcom e.2)) →
      deltaDelPhase vcom dels s = s
  | [], _, _ => rfl
  | e :: dels, s, h => by
    rw [deltaDelPhase_cons]
    have hstep : deltaDelStep vcom s e = s := by
      unfold deltaDelStep
      rw [if_pos (h e (List.mem_cons_self e dels))]
    rw [hstep]
    exact deltaDelPhase_skip vcom dels s (fun f hf => h f (List.mem_cons_of_mem e hf))

/-- Claim C9: every deletion (u, v) in the batch whose endpoints share the
same primary community makes delta-screening mark u, mark every
out-neighbor of u, and mark every vertex whose primary community is the
shared community; and a batch consisting only of cross-community
deletions, with no insertions, contributes no marks at all. -/
theorem copraAffectedDelta_deletion_marks :
    (∀ (x : Graph) (dels : List (Nat × Nat)) (ins : List (Nat × Nat × ℚ))
        (vcom : Nat → Labelset) (vtot : Nat → ℚ) (B : ℚ) (u v : Nat),
      (u, v) ∈ dels → primary (vcom u) = primary (vcom v) →
      (u < x.span →
        (copraAffectedVerticesDeltaScreening x dels ins vcom vtot B).getD u false = true) ∧
      (∀ p ∈ x.adj u, u < x.span → p.1 < x.span →
        (copraAffectedVerticesDeltaScreening x dels ins vcom vtot B).getD p.1 false = true) ∧
      (∀ t, t < x.span → primary (vcom t) = primary (vcom u) →
        (copraAffectedVerticesDeltaScreening x dels ins vcom vtot B).getD t false = true)) ∧
    (∀ (x : Graph) (dels : List (Nat × Nat)) (vcom : Nat → Labelset)
        (vtot : Nat → ℚ) (B : ℚ),
      (∀ e ∈ dels, primary (vcom e.1) ≠ primary (vcom e.2)) →
      copraAffectedVerticesDeltaScreening x dels [] vcom vtot B =
        List.replicate x.span false) := by
  constructor
  · intro x dels ins vcom vtot B u v hmem hc
    have hdel := deltaDelPhase_marks vcom dels
      (fun _ => false, fun _ => false, fun _ => false) u v hmem hc
    have hle := deltaInsRuns_le vcom vtot B ins.length ins
      (deltaDelPhase vcom dels (fun _ => false, fun _ => false, fun _ => false))
    have hV : (deltaFlags dels ins vcom vtot B).1 u = true := hle.1 u hdel.1
    have hN : (deltaFlags dels ins vcom vtot B).2.1 u = true := hle.2.1 u hdel.2.1
    have hC : (deltaFlags dels ins vcom vtot B).2.2 (primary (vcom u)) = true :=
      hle.2.2 _ hdel.2.2
    refine ⟨?_, ?_, ?_⟩
    · intro hu
      unfold copraAffectedVerticesDeltaScreening
      rw [getD_map_range _ _ _ hu]
      exact propFold_mono x vcom _ _ _ _ u hV
    · intro p hp hu hp1
      unfold copraAffectedVerticesDeltaScreening
      rw [getD_map_range _ _ _ hp1]
      exact propFold_marks_neighbor x vcom _ _ _ _ u p (List.mem_range.mpr hu) hN hp
    · intro t ht hct
      unfold copraAffectedVerticesDeltaScreening
      rw [getD_map_range _ _ _ ht]
      refine propFold_marks_community x vcom _ _ _ _ t (List.mem_range.mpr ht) ?_
      rw [hct]
      exact hC
  · intro x dels vcom vtot B hall
    have hflags : deltaFlags dels [] vcom vtot B =
        (fun _ => false, fun _ => false, fun _ => false) := by
      unfold deltaFlags
      rw [deltaDelPhase_skip vcom dels _ hall]
      rfl
    unfold copraAffectedVerticesDeltaScreening
    rw [hflags]
    dsimp only
    rw [propFold_id x vcom _ _ (fun _ => rfl) (fun _ => rfl)]
    rw [map_const_false, List.length_range]

/-- Graph for the claim C9 witness: two vertices, edge 0 → 1. -/
def graphC9w : Graph := ⟨2, fun u => if u = 0 then [(1, 1)] else []⟩

/-- Labelset table for the claim C9 and C3 witnesses: everyone's primary
community is 0. -/
def vcomC9w : Nat → Labelset := fun _ => [(0, 1)]

/-- Witness for `copraAffectedDelta_deletion_marks`: deletion (0, 1) with
both endpoints in community 0 marks vertex 0's out-neighbor 1. -/
theorem copraAffectedDelta_deletion_marks_witness :
    (copraAffectedVerticesDeltaScreening graphC9w [(0, 1)] [] vcomC9w
      (fun _ => 1) 1).getD 1 false = true := by
  have h := copraAffectedDelta_deletion_marks.1 graphC9w [(0, 1)] [] vcomC9w
    (fun _ => 1) 1 0 1 (by decide) (by decide)
  exact h.2.1 (1, 1) (by decide) (by decide) (by decide)

theorem deltaDelPhase_fst (vcom : Nat → Labelset) :
    ∀ (dels : List (Nat × Nat)) (V N C : Nat → Bool),
      (deltaDelPhase vcom dels (V, N, C)).1 = dels.foldl (frontierDelStep vcom) V
  | [], _, _, _ => rfl
  | e :: dels, V, N, C => by
    rw [deltaDelPhase_cons, List.foldl_cons]
    by_cases hcond : primary (vcom e.1) ≠ primary (vcom e.2)
    · rw [show deltaDelStep vcom (V, N, C) e = (V, N, C) from by
        unfold deltaDelStep; rw [if_pos hcond]]
      rw [show frontierDelStep vcom V e = V from by
        unfold frontierDelStep; rw [if_pos hcond]]
      exact deltaDelPhase_fst vcom dels V N C
    · rw [show deltaDelStep vcom (V, N, C) e =
          (setFlag V e.1, setFlag N e.1, setFlag C (primary (vcom e.2))) from by
        unfold deltaDelStep; rw [if_neg hcond]]
      rw [show frontierDelStep vcom V e = setFlag V e.1 from by
        unfold frontierDelStep; rw [if_neg hcond]]
      exact deltaDelPhase_fst vcom dels _ _ _

/-- Graph for the claim C3 counterexample: two vertices, no edges. -/
def graphC3 : Graph := ⟨2, fun _ => []⟩

/-- Claim C3 counterexample: one cross-community insertion (0, 1, w=1) on
a two-vertex graph with singleton self labelsets, vtot ≡ 1, B = 1. The
frontier heuristic marks the source vertex 0 of the cross-community
insertion; delta-screening does not mark it (or anything): its insertion
scan reads the source's own labelset, so the weight accumulates on
community 0 and the selector returns community 0 — vertex 0's current
primary community — raising no flag. Hence delta-screening does not mark
a superset of the frontier heuristic's marks. -/
theorem frontier_not_subset_delta_counterexample :
    (copraAffectedVerticesFrontier graphC3 [] [(0, 1, 1)] vcomSelf).getD 0 false = true ∧
    (copraAffectedVerticesDeltaScreening graphC3 [] [(0, 1, 1)] vcomSelf
      (fun _ => 1) 1).getD 0 false = false := by
  constructor
  · decide
  · norm_num [copraAffectedVerticesDeltaScreening, deltaFlags, deltaInsRuns, deltaInsStep,
      deltaScanRun, deltaDelPhase, deltaPropStep, deltaPropNeigh, copraScanCommunity,
      scanEntries, copraChooseCommunity, copraChooseStep1, copraChooseStep2, primary,
      setFlag, vcomSelf, graphC3, List.range_succ]

/-- Claim C3 (amended): on a batch of edge deletions only (no insertions),
every vertex flagged affected by `copraAffectedVerticesFrontier` is also
flagged affected by `copraAffectedVerticesDeltaScreening`. (For insertion
batches the frontier heuristic can mark a source vertex that
delta-screening — which marks only when the re-selected top community
changes — does not mark.) -/
theorem frontier_subset_delta_deletions :
    ∀ (x : Graph) (dels : List (Nat × Nat)) (vcom : Nat → Labelset)
      (vtot : Nat → ℚ) (B : ℚ) (t : Nat),
      (copraAffectedVerticesFrontier x dels [] vcom).getD t false = true →
      (copraAffectedVerticesDeltaScreening x dels [] vcom vtot B).getD t false = true := by
  intro x dels vcom vtot B t h
  by_cases ht : t < x.span
  · unfold copraAffectedVerticesFrontier at h
    rw [getD_map_range _ _ _ ht] at h
    unfold copraAffectedVerticesDeltaScreening
    rw [getD_map_range _ _ _ ht]
    apply propFold_mono
    show (deltaFlags dels [] vcom vtot B).1 t = true
    have h1 : (deltaDelPhase vcom dels
        (fun _ => false, fun _ => false, fun _ => false)).1 t = true := by
      rw [deltaDelPhase_fst]
      exact h
    exact h1
  · exfalso
    unfold copraAffectedVerticesFrontier at h
    rw [getD_map_range_ge _ _ _ ht] at h
    exact Bool.false_ne_true h

/-- Witness for `frontier_subset_delta_deletions`: the same-community
deletion (0, 1) makes frontier mark vertex 0, hence delta-screening marks
it too. -/
theorem frontier_subset_delta_deletions_witness :
    (copraAffectedVerticesDeltaScreening graphC3 [(0, 1)] [] vcomC9w
      (fun _ => 1) 1).getD 0 false = true :=
  frontier_subset_delta_deletions graphC3 [(0, 1)] vcomC9w (fun _ => 1) 1 0 (by decide)

/-- Graph for the claim C8 evaluation: the spec's example, three vertices;
vertex 0 has out-neighbor 1 (so "u's neighbors" is non-empty). -/
def graphC8 : Graph := ⟨3, fun u => if u = 0 then [(1, 1)] else []⟩

/-- Vertex weights for the claim C8 evaluation: `vtot[0] = 5` as in the
spec's example. -/
def vtotC8 : Nat → ℚ := fun u => if u = 0 then 5 else 0

/-- Claim C8: the spec's own example — insertion batch [(0, 2, w=5)] with
singleton self labelsets (vcom[0]=0, vcom[2]=2), B = 1/10,
vertexWeight[0] = 5. The claim says the scanned weight 5 goes to
community 2, the selector picks community 2 (≥ threshold 1/2), and vertex
0, its neighbors, and community 2's members are marked affected. The code
instead scans the SOURCE's labelset: the weight accrues to community 0,
the selector returns community 0 = vertex 0's current primary community,
and no vertex at all is marked — the result is all-false. -/
theorem copraAffectedDelta_insertion_example_eval :
    copraAffectedVerticesDeltaScreening graphC8 [] [(0, 2, 5)] vcomSelf vtotC8 (1 / 10) =
      [false, false, false] := by
  norm_num [copraAffectedVerticesDeltaScreening, deltaFlags, deltaInsRuns, deltaInsStep,
    deltaScanRun, deltaDelPhase, deltaPropStep, deltaPropNeigh, copraScanCommunity,
    scanEntries, copraChooseCommunity, copraChooseStep1, copraChooseStep2, primary,
    setFlag, vcomSelf, graphC8, vtotC8, List.range_succ]

end Copra
